import Mathlib

/-!
Verification development for `compiler/optimizing/loop_optimization.h` and
`runtime/class_table-inl.h`.

Pointers are modelled by their address (a natural number); a nullable link between
loop nodes is an `Option` of the address of the node it points to.  Enumerations are
modelled either as inductive types (when declared in the sources) or by their
enumerator value (when only used there).
-/

set_option linter.dupNamespace false

namespace art

namespace HLoopOptimization

/-! ## Data model of `loop_optimization.h` -/

/-- Enumeration `LoopNode::TryCatchKind`. -/
inductive TryCatchKind where
  | kUnknown
  | kHasTryCatch
  | kNoTryCatch
deriving DecidableEq, Repr

/-- Record `LoopNode`: a single loop inside the loop hierarchy representation.
`loop_info` is the address of the `HLoopInformation` the node wraps. -/
structure LoopNode where
  loop_info : Nat
  outer : Option Nat
  inner : Option Nat
  previous : Option Nat
  next : Option Nat
  try_catch_kind : TryCatchKind
deriving DecidableEq, Repr

/-- Constructor `LoopNode(HLoopInformation* lp_info)`. -/
def LoopNode.LoopNode (lp_info : Nat) : LoopNode :=
  { loop_info := lp_info
    outer := none
    inner := none
    previous := none
    next := none
    try_catch_kind := TryCatchKind.kUnknown }

/-! ### `VectorRestrictions` (bit mask) -/

def kNone : Nat := 0
def kNoMul : Nat := 1 <<< 0
def kNoDiv : Nat := 1 <<< 1
def kNoShift : Nat := 1 <<< 2
def kNoShr : Nat := 1 <<< 3
def kNoHiBits : Nat := 1 <<< 4
def kNoSignedHAdd : Nat := 1 <<< 5
def kNoUnroundedHAdd : Nat := 1 <<< 6
def kNoAbs : Nat := 1 <<< 7
def kNoStringCharAt : Nat := 1 <<< 8
def kNoReduction : Nat := 1 <<< 9
def kNoSAD : Nat := 1 <<< 10
def kNoWideSAD : Nat := 1 <<< 11
def kNoDotProd : Nat := 1 <<< 12

/-- The thirteen named restrictions of `VectorRestrictions`, in declaration order. -/
def namedRestrictions : List Nat :=
  [kNoMul, kNoDiv, kNoShift, kNoShr, kNoHiBits, kNoSignedHAdd, kNoUnroundedHAdd,
   kNoAbs, kNoStringCharAt, kNoReduction, kNoSAD, kNoWideSAD, kNoDotProd]

/-! ### `ArrayReference` -/

/-- Record `ArrayReference`: representation of a unit-stride array reference.
`base` and `offset` are the addresses of the `HInstruction`s, `type` is the enumerator
value of the `DataType::Type` component type. -/
structure ArrayReference where
  base : Nat
  offset : Nat
  type : Nat
  lhs : Bool
  is_string_char_at : Bool
deriving DecidableEq, Repr

/-- Comparison `bool < bool` of C++: both operands are promoted to `int`. -/
def boolLess (x y : Bool) : Bool := decide (x.toNat < y.toNat)

/-- Member `ArrayReference::operator<`. -/
def ArrayReference.operator_lt (a other : ArrayReference) : Bool :=
  decide (a.base < other.base) ||
  (a.base == other.base &&
   (decide (a.offset < other.offset) || (a.offset == other.offset &&
                                         (decide (a.type < other.type) ||
                                          (a.type == other.type &&
                                           (boolLess a.lhs other.lhs ||
                                            (a.lhs == other.lhs &&
                                             boolLess a.is_string_char_at
                                               other.is_string_char_at)))))))

/-- The five fields of an `ArrayReference` as an element of the lexicographic product
`ℕ ×ₗ ℕ ×ₗ ℕ ×ₗ Bool ×ₗ Bool` (with `false < true` on `Bool`). -/
def ArrayReference.key (a : ArrayReference) : ℕ ×ₗ ℕ ×ₗ ℕ ×ₗ Bool ×ₗ Bool :=
  toLex (a.base, toLex (a.offset, toLex (a.type, toLex (a.lhs, a.is_string_char_at))))

/-! ### Try/catch classification of the loop hierarchy

The nodes of the hierarchy live in the phase-local arena; the arena is the list of its
nodes and the address of a node is its position in the list. -/

/-- Modelled from the spec: the restriction bit mask that the legality pass of the
vectorizer (`VectorizeDef` and `VectorizeUse` with `TrySetVectorType`, declared in
`loop_optimization.h`; their bodies are in `loop_optimization.cc`, not part of the
sources) accumulates for the candidate element type `type` over the instructions of a
loop body.  The spec: "a legality pass over every value defined or used in the body
[...] accumulating a restriction bitmask per candidate element type", "a plain unsigned
integer with named bit constants and bitwise-or accumulation".  The mask starts at
`kNone`; `restrictions_of instruction type` are the bits that the analysis of one
instruction adds for the type. -/
def accumulateRestrictions (restrictions_of : Nat → Nat → Nat) (type : Nat)
    (body : List Nat) : Nat :=
  body.foldl (fun restrictions instruction => restrictions ||| restrictions_of instruction type)
    kNone

end HLoopOptimization

namespace ClassTable

/-! ## Data model of `class_table-inl.h` -/

/-- Template parameter `ReadBarrierOption` of `TableSlot::Read` and `ClassTable::Visit`. -/
inductive ReadBarrierOption where
  | kWithReadBarrier
  | kWithoutReadBarrier
deriving DecidableEq, Repr

/-- What `class_table-inl.h` uses from headers outside the sources: the constant
`TableSlot::kHashMask` and the function `TableSlot::MaskHash` of `class_table.h`, and the
read barrier behind `GcRoot<mirror::Class>::Read<kWithReadBarrier>` (the address at which
the collector currently keeps the class stored at a given address). -/
structure Env where
  kHashMask : Nat
  MaskHash : Nat → Nat
  readBarrier : Nat → Nat

/-- Record `ClassTable::TableSlot`: the 32-bit word `data_`. -/
structure TableSlot where
  data_ : Nat
deriving DecidableEq, Repr

/-- Function `TableSlot::ExtractPtr`: `data & ~kHashMask` on 32-bit words. -/
def TableSlot.ExtractPtr (env : Env) (data : Nat) : Nat :=
  data &&& ((2 ^ 32 - 1) ^^^ env.kHashMask)

/-- Function `TableSlot::Encode`: `klass | hash_bits`, narrowed to the 32-bit result. -/
def TableSlot.Encode (klass hash_bits : Nat) : Nat :=
  (klass ||| hash_bits) % 2 ^ 32

/-- Call `GcRoot<mirror::Class>(ptr).Read<kReadBarrierOption>()`. -/
def GcRootRead (env : Env) (opt : ReadBarrierOption) (ptr : Nat) : Nat :=
  match opt with
  | ReadBarrierOption.kWithReadBarrier => env.readBarrier ptr
  | ReadBarrierOption.kWithoutReadBarrier => ptr

/-- Function `TableSlot::Read<kReadBarrierOption>`: the class read from the slot, and the
slot after the read (the compare-and-set is the one of a run without a racing thread). -/
def TableSlot.Read (env : Env) (opt : ReadBarrierOption) (slot : TableSlot) : Nat × TableSlot :=
  let before := slot.data_
  let before_ptr := TableSlot.ExtractPtr env before
  let after_ptr := GcRootRead env opt before_ptr
  if opt ≠ ReadBarrierOption.kWithoutReadBarrier ∧ before_ptr ≠ after_ptr then
    (after_ptr, { data_ := TableSlot.Encode after_ptr (env.MaskHash before) })
  else
    (after_ptr, slot)

/-- Function `TableSlot::VisitRoot(const Visitor& visitor)`: the slot after the call.
`visitor` gives the class address that `visitor.VisitRoot(root.AddressWithoutBarrier())`
leaves in the root it is handed, which `root.Read<kWithoutReadBarrier>()` then reads (the
compare-and-set is the one of a run without a racing thread). -/
def TableSlot.VisitRoot (env : Env) (visitor : Nat → Nat) (slot : TableSlot) : TableSlot :=
  let before := slot.data_
  let before_ptr := TableSlot.ExtractPtr env before
  let after_ptr := visitor before_ptr
  if before_ptr ≠ after_ptr then
    { data_ := TableSlot.Encode after_ptr (env.MaskHash before) }
  else
    slot

/-! ### `ClassDescriptorEquals` -/

/-- What `ClassTable::ClassDescriptorEquals` uses from headers outside the sources:
`TableSlot::Hash` and `TableSlot::MaskedHashEquals` of `class_table.h`, and
`mirror::Class::GetDescriptor` and `mirror::Class::DescriptorEquals` of `mirror/class.h`
(a class is given by its address). -/
structure DescriptorEnv where
  Hash : TableSlot → Nat
  MaskedHashEquals : TableSlot → Nat → Bool
  GetDescriptor : Nat → String
  DescriptorEquals : Nat → String → Bool

/-- Macro `DCHECK(cond)`: with debug checks enabled a false condition aborts (`none`);
without them the condition is not evaluated. -/
def DCHECK (kEnableDChecks : Bool) (cond : Bool) : Option Unit :=
  if kEnableDChecks && !cond then none else some ()

/-- Function `ClassDescriptorEquals::operator()(const TableSlot& a, const TableSlot& b)`. -/
def ClassDescriptorEquals.operator_call (kEnableDChecks : Bool) (env : Env)
    (denv : DescriptorEnv) (a b : TableSlot) : Option Bool :=
  if denv.Hash a ≠ denv.Hash b then
    (DCHECK kEnableDChecks
      (!denv.DescriptorEquals (TableSlot.Read env ReadBarrierOption.kWithoutReadBarrier a).1
        (denv.GetDescriptor
          (TableSlot.Read env ReadBarrierOption.kWithoutReadBarrier b).1))).bind
      (fun _ => some false)
  else
    some (denv.DescriptorEquals (TableSlot.Read env ReadBarrierOption.kWithoutReadBarrier a).1
      (denv.GetDescriptor (TableSlot.Read env ReadBarrierOption.kWithoutReadBarrier b).1))

/-- Function
`ClassDescriptorEquals::operator()(const TableSlot& a, const DescriptorHashPair& b)`;
a `DescriptorHashPair` is the pair of a descriptor and its hash. -/
def ClassDescriptorEquals.operator_call_pair (kEnableDChecks : Bool) (env : Env)
    (denv : DescriptorEnv) (a : TableSlot) (b : String × Nat) : Option Bool :=
  if !denv.MaskedHashEquals a b.2 then
    (DCHECK kEnableDChecks
      (!denv.DescriptorEquals (TableSlot.Read env ReadBarrierOption.kWithoutReadBarrier a).1
        b.1)).bind
      (fun _ => some false)
  else
    some (denv.DescriptorEquals (TableSlot.Read env ReadBarrierOption.kWithoutReadBarrier a).1
      b.1)

/-- Inner loop of `ClassTable::Visit(Visitor&)` over the slots of one class set.  The
visitor is a function object with a state `σ`: a call takes the state and the class and
gives the answer and the new state.  The result is `false` when the function returned
from inside the loop. -/
def VisitClassSet {σ : Type} (env : Env) (opt : ReadBarrierOption)
    (visitor : σ → Nat → Bool × σ) : List TableSlot → σ → Bool × σ × List TableSlot
  | [], v => (true, v, [])
  | table_slot :: rest, v =>
    let r := TableSlot.Read env opt table_slot
    let a := visitor v r.1
    if !a.1 then
      (false, a.2, r.2 :: rest)
    else
      let t := VisitClassSet env opt visitor rest a.2
      (t.1, t.2.1, r.2 :: t.2.2)

/-- Function `ClassTable::Visit(Visitor& visitor)` on the class sets `classes_`: the
returned boolean, the visitor afterwards and the class sets afterwards. -/
def Visit {σ : Type} (env : Env) (opt : ReadBarrierOption)
    (visitor : σ → Nat → Bool × σ) : List (List TableSlot) → σ → Bool × σ × List (List TableSlot)
  | [], v => (true, v, [])
  | class_set :: rest, v =>
    let t := VisitClassSet env opt visitor class_set v
    if !t.1 then
      (false, t.2.1, t.2.2 :: rest)
    else
      let u := Visit env opt visitor rest t.2.1
      (u.1, u.2.1, t.2.2 :: u.2.2)

/-- Inner loop of `ClassTable::Visit(const Visitor&)`: the visitor is constant, a call
gives only the answer. -/
def VisitClassSetConst (env : Env) (opt : ReadBarrierOption)
    (visitor : Nat → Bool) : List TableSlot → Bool × List TableSlot
  | [] => (true, [])
  | table_slot :: rest =>
    let r := TableSlot.Read env opt table_slot
    if !visitor r.1 then
      (false, r.2 :: rest)
    else
      let t := VisitClassSetConst env opt visitor rest
      (t.1, r.2 :: t.2)

/-- Function `ClassTable::Visit(const Visitor& visitor)`. -/
def VisitConst (env : Env) (opt : ReadBarrierOption)
    (visitor : Nat → Bool) : List (List TableSlot) → Bool × List (List TableSlot)
  | [] => (true, [])
  | class_set :: rest =>
    let t := VisitClassSetConst env opt visitor class_set
    if !t.1 then
      (false, t.2 :: rest)
    else
      let u := VisitConst env opt visitor rest
      (u.1, t.2 :: u.2)

/-- The classes read from the slots of a class table, in iteration order: class sets in
order, slots in order within a set. -/
def classesRead (env : Env) (opt : ReadBarrierOption) (classes_ : List (List TableSlot)) :
    List Nat :=
  classes_.flatten.map (fun slot => (TableSlot.Read env opt slot).1)

/-- The visitor after it has been applied to the given classes, one after the other. -/
def applyAll {σ : Type} (visitor : σ → Nat → Bool × σ) (cs : List Nat) (v : σ) : σ :=
  cs.foldl (fun w c => (visitor w c).2) v

/-- The answer of the `i`-th application when the visitor is applied to the classes `cs`
one after the other, starting in state `v`. -/
def answerAt {σ : Type} (visitor : σ → Nat → Bool × σ) (cs : List Nat) (v : σ) (i : Nat) : Bool :=
  (visitor (applyAll visitor (cs.take i) v) (cs.getD i 0)).1

/-- A visitor that, next to what `visitor` does, records the classes it is applied to. -/
def recording {σ : Type} (visitor : σ → Nat → Bool × σ) :
    σ × List Nat → Nat → Bool × (σ × List Nat) :=
  fun w c => ((visitor w.1 c).1, ((visitor w.1 c).2, w.2 ++ [c]))

/-- The loop of `Visit` seen on the list of the classes read: apply the visitor to the
classes in order and stop after the first answer `false`. -/
def visitClasses {σ : Type} (visitor : σ → Nat → Bool × σ) : List Nat → σ → Bool × σ
  | [], v => (true, v)
  | c :: rest, v =>
    if !(visitor v c).1 then (false, (visitor v c).2)
    else visitClasses visitor rest (visitor v c).2

end ClassTable

end art

namespace art

namespace HLoopOptimization

/-! ## Theorems -/

theorem boolLess_iff (x y : Bool) : boolLess x y = true ↔ x < y := by
  cases x <;> cases y <;> decide

theorem operator_lt_iff_key (a b : ArrayReference) :
    a.operator_lt b = true ↔ a.key < b.key := by
  simp only [ArrayReference.operator_lt, ArrayReference.key, Prod.Lex.lt_iff, Bool.or_eq_true,
    Bool.and_eq_true, decide_eq_true_eq, beq_iff_eq, boolLess_iff, ofLex_toLex]

theorem key_injective (a b : ArrayReference) (h : a.key = b.key) : a = b := by
  cases a; cases b
  simp only [ArrayReference.key, EmbeddingLike.apply_eq_iff_eq, Prod.mk.injEq] at h
  obtain ⟨h1, h2, h3, h4, h5⟩ := h
  subst h1 h2 h3 h4 h5
  rfl

/-- C1: `a < b` (`ArrayReference::operator<`) holds exactly when the tuple
`(base, offset, type, lhs, is_string_char_at)` of `a` is strictly smaller than that of `b`
in the lexicographic order, addresses and the enum value being compared as numbers and
the booleans with `false < true`. -/
theorem ArrayReference_operator_lt_lexicographic (a b : ArrayReference) :
    a.operator_lt b = true ↔
      toLex (a.base, toLex (a.offset, toLex (a.type, toLex (a.lhs, a.is_string_char_at)))) <
        (toLex (b.base, toLex (b.offset, toLex (b.type, toLex (b.lhs, b.is_string_char_at)))) :
          ℕ ×ₗ ℕ ×ₗ ℕ ×ₗ Bool ×ₗ Bool) :=
  operator_lt_iff_key a b

/-- C2: `ArrayReference::operator<` is a strict total order: it is irreflexive,
transitive, and two references are incomparable exactly when they agree on all five
fields (so that an ordered set keyed by it holds one element per five-field tuple). -/
theorem ArrayReference_operator_lt_strict_total_order (a b c : ArrayReference) :
    a.operator_lt a = false ∧
    (a.operator_lt b = true → b.operator_lt c = true → a.operator_lt c = true) ∧
    ((a.operator_lt b = false ∧ b.operator_lt a = false) ↔
      (a.base = b.base ∧ a.offset = b.offset ∧ a.type = b.type ∧ a.lhs = b.lhs ∧
        a.is_string_char_at = b.is_string_char_at)) := by
  refine ⟨?_, ?_, ?_⟩
  · rw [← Bool.not_eq_true, operator_lt_iff_key]
    exact lt_irrefl _
  · intro hab hbc
    rw [operator_lt_iff_key] at hab hbc ⊢
    exact lt_trans hab hbc
  · rw [← Bool.not_eq_true, ← Bool.not_eq_true, operator_lt_iff_key, operator_lt_iff_key]
    constructor
    · rintro ⟨h1, h2⟩
      have h := key_injective a b (le_antisymm (not_lt.mp h2) (not_lt.mp h1))
      subst h
      exact ⟨rfl, rfl, rfl, rfl, rfl⟩
    · rintro ⟨h1, h2, h3, h4, h5⟩
      have h : a = b := by
        cases a; cases b; simp only at h1 h2 h3 h4 h5; subst h1 h2 h3 h4 h5; rfl
      subst h
      exact ⟨lt_irrefl _, lt_irrefl _⟩

/-- Witness for C2 at three concrete references that differ only in their last fields. -/
theorem ArrayReference_operator_lt_strict_total_order_witness :
    (ArrayReference.mk 8 16 3 false false).operator_lt (ArrayReference.mk 8 16 3 false true)
        = true ∧
    (ArrayReference.mk 8 16 3 false true).operator_lt (ArrayReference.mk 8 16 3 true false)
        = true ∧
    (ArrayReference.mk 8 16 3 false false).operator_lt (ArrayReference.mk 8 16 3 true false)
        = true :=
  ⟨by decide, by decide,
    (ArrayReference_operator_lt_strict_total_order (ArrayReference.mk 8 16 3 false false)
      (ArrayReference.mk 8 16 3 false true) (ArrayReference.mk 8 16 3 true false)).2.1
      (by decide) (by decide)⟩

theorem two_pow_or_and_self (m i : Nat) : (m ||| 2 ^ i) &&& m = m := by
  apply Nat.eq_of_testBit_eq
  intro n
  rw [Nat.testBit_and, Nat.testBit_or]
  cases m.testBit n <;> simp

theorem two_pow_or_and_same (m i : Nat) : (m ||| 2 ^ i) &&& 2 ^ i ≠ 0 := by
  intro h
  have h1 : ((m ||| 2 ^ i) &&& 2 ^ i).testBit i = true := by
    rw [Nat.testBit_and, Nat.testBit_or, Nat.testBit_two_pow_self]
    simp
  rw [h] at h1
  simp at h1

theorem two_pow_or_and_other (m i j : Nat) (hij : i ≠ j) :
    (m ||| 2 ^ i) &&& 2 ^ j = m &&& 2 ^ j := by
  apply Nat.eq_of_testBit_eq
  intro n
  rw [Nat.testBit_and, Nat.testBit_and, Nat.testBit_or, Nat.testBit_two_pow, Nat.testBit_two_pow]
  by_cases h1 : i = n
  · by_cases h2 : j = n
    · exact absurd (h1.trans h2.symm) hij
    · simp [h2]
  · simp [h1]

theorem namedRestrictions_eq_two_pow :
    namedRestrictions = (List.range 13).map (fun i => 2 ^ i) := by
  decide

theorem mem_namedRestrictions_iff (k : Nat) :
    k ∈ namedRestrictions ↔ ∃ i, i < 13 ∧ k = 2 ^ i := by
  rw [namedRestrictions_eq_two_pow, List.mem_map]
  constructor
  · rintro ⟨i, hi, rfl⟩
    exact ⟨i, List.mem_range.mp hi, rfl⟩
  · rintro ⟨i, hi, rfl⟩
    exact ⟨i, List.mem_range.mpr hi, rfl⟩

/-- C6: the `VectorRestrictions` constants form a well-formed bit mask: `kNone` is 0,
each of the 13 named restrictions is non-zero with exactly one bit set, the 13 values are
pairwise distinct, and for every mask `m` and two different named restrictions `k`, `k2`
the mask `m | k` contains every bit of `m`, has the bit of `k` set, and agrees with `m`
on the bit of `k2`. -/
theorem VectorRestrictions_wellformed_bitmask :
    kNone = 0 ∧
    namedRestrictions.length = 13 ∧
    (∀ k ∈ namedRestrictions, k ≠ 0 ∧ ∃ i, ∀ j, k.testBit j = decide (i = j)) ∧
    namedRestrictions.Pairwise (fun k k2 => k ≠ k2) ∧
    (∀ m k k2 : Nat, k ∈ namedRestrictions → k2 ∈ namedRestrictions → k ≠ k2 →
      (m ||| k) &&& m = m ∧ (m ||| k) &&& k ≠ 0 ∧ (m ||| k) &&& k2 = m &&& k2) := by
  refine ⟨rfl, rfl, ?_, by decide, ?_⟩
  · intro k hk
    obtain ⟨i, -, rfl⟩ := (mem_namedRestrictions_iff k).mp hk
    exact ⟨by positivity, i, fun j => Nat.testBit_two_pow⟩
  · intro m k k2 hk hk2 hne
    obtain ⟨i, -, rfl⟩ := (mem_namedRestrictions_iff k).mp hk
    obtain ⟨j, -, rfl⟩ := (mem_namedRestrictions_iff k2).mp hk2
    have hij : i ≠ j := fun h => hne (by rw [h])
    exact ⟨two_pow_or_and_self m i, two_pow_or_and_same m i, two_pow_or_and_other m i j hij⟩

/-- Witness for C6: accumulating `kNoDiv` into the mask `kNoMul | kNoAbs`. -/
theorem VectorRestrictions_wellformed_bitmask_witness :
    ((kNoMul ||| kNoAbs) ||| kNoDiv) &&& (kNoMul ||| kNoAbs) = (kNoMul ||| kNoAbs) ∧
    ((kNoMul ||| kNoAbs) ||| kNoDiv) &&& kNoDiv ≠ 0 ∧
    ((kNoMul ||| kNoAbs) ||| kNoDiv) &&& kNoSAD = (kNoMul ||| kNoAbs) &&& kNoSAD :=
  VectorRestrictions_wellformed_bitmask.2.2.2.2 (kNoMul ||| kNoAbs) kNoDiv kNoSAD
    (by decide) (by decide) (by decide)

/-! ### Try/catch classification -/

theorem testBit_foldl_or (f : Nat → Nat) (l : List Nat) (r j : Nat) :
    (l.foldl (fun acc i => acc ||| f i) r).testBit j =
      (r.testBit j || l.any (fun i => (f i).testBit j)) := by
  induction l generalizing r with
  | nil => simp
  | cons i rest ih =>
    simp only [List.foldl_cons, ih, Nat.testBit_or, List.any_cons, Bool.or_assoc]

/-- C7: the restriction mask accumulated for a candidate type over a loop body contains
(bitwise) the mask accumulated for the same type over the same body with fewer
instructions: every restriction bit of the smaller analysis is a bit of the larger one. -/
theorem accumulateRestrictions_monotone (restrictions_of : Nat → Nat → Nat) (type : Nat)
    (body fewer : List Nat) (h : fewer.Sublist body) :
    accumulateRestrictions restrictions_of type fewer &&&
        accumulateRestrictions restrictions_of type body =
      accumulateRestrictions restrictions_of type fewer ∧
    ∀ j, (accumulateRestrictions restrictions_of type fewer).testBit j = true →
      (accumulateRestrictions restrictions_of type body).testBit j = true := by
  have hbits : ∀ j, (accumulateRestrictions restrictions_of type fewer).testBit j = true →
      (accumulateRestrictions restrictions_of type body).testBit j = true := by
    intro j hj
    unfold accumulateRestrictions at hj ⊢
    rw [testBit_foldl_or (fun i => restrictions_of i type)] at hj ⊢
    simp only [kNone, Nat.zero_testBit, Bool.false_or, List.any_eq_true] at hj ⊢
    obtain ⟨i, hi, hb⟩ := hj
    exact ⟨i, h.subset hi, hb⟩
  refine ⟨?_, hbits⟩
  apply Nat.eq_of_testBit_eq
  intro j
  rw [Nat.testBit_and]
  cases hf : (accumulateRestrictions restrictions_of type fewer).testBit j with
  | false => rfl
  | true => simp [hbits j hf]

/-- Witness for C7: a body of three instructions of which the second adds `kNoDiv` and
the third `kNoShr`, analyzed without its second instruction. -/
theorem accumulateRestrictions_monotone_witness :
    accumulateRestrictions (fun i _ => if i = 11 then kNoDiv else if i = 12 then kNoShr else 0)
        7 [10, 12] &&&
      accumulateRestrictions (fun i _ => if i = 11 then kNoDiv else if i = 12 then kNoShr else 0)
        7 [10, 11, 12] =
    accumulateRestrictions (fun i _ => if i = 11 then kNoDiv else if i = 12 then kNoShr else 0)
      7 [10, 12] :=
  (accumulateRestrictions_monotone
    (fun i _ => if i = 11 then kNoDiv else if i = 12 then kNoShr else 0) 7 [10, 11, 12] [10, 12]
    (by decide)).1

/-- C9: a freshly constructed `LoopNode(loop_info)` stores `loop_info` unchanged, has all
four structural links null and has `try_catch_kind` equal to `kUnknown`. -/
theorem LoopNode_constructor_fields (lp_info : Nat) :
    (LoopNode.LoopNode lp_info).loop_info = lp_info ∧
    (LoopNode.LoopNode lp_info).outer = none ∧
    (LoopNode.LoopNode lp_info).inner = none ∧
    (LoopNode.LoopNode lp_info).previous = none ∧
    (LoopNode.LoopNode lp_info).next = none ∧
    (LoopNode.LoopNode lp_info).try_catch_kind = TryCatchKind.kUnknown :=
  ⟨rfl, rfl, rfl, rfl, rfl, rfl⟩

end HLoopOptimization

end art

namespace art

namespace ClassTable

theorem VisitClassSet_eq_visitClasses {σ : Type} (env : Env) (opt : ReadBarrierOption)
    (visitor : σ → Nat → Bool × σ) (slots : List TableSlot) (v : σ) :
    ((VisitClassSet env opt visitor slots v).1, (VisitClassSet env opt visitor slots v).2.1) =
      visitClasses visitor (slots.map (fun slot => (TableSlot.Read env opt slot).1)) v := by
  induction slots generalizing v with
  | nil => rfl
  | cons slot rest ih =>
    simp only [VisitClassSet, List.map_cons, visitClasses]
    split
    · rfl
    · exact ih _

theorem visitClasses_append {σ : Type} (visitor : σ → Nat → Bool × σ) (l1 l2 : List Nat) (v : σ) :
    visitClasses visitor (l1 ++ l2) v =
      if !(visitClasses visitor l1 v).1 then visitClasses visitor l1 v
      else visitClasses visitor l2 (visitClasses visitor l1 v).2 := by
  induction l1 generalizing v with
  | nil => simp [visitClasses]
  | cons c rest ih =>
    simp only [List.cons_append, visitClasses]
    split
    · simp
    · exact ih _

theorem Visit_eq_visitClasses {σ : Type} (env : Env) (opt : ReadBarrierOption)
    (visitor : σ → Nat → Bool × σ) (classes_ : List (List TableSlot)) (v : σ) :
    ((Visit env opt visitor classes_ v).1, (Visit env opt visitor classes_ v).2.1) =
      visitClasses visitor (classesRead env opt classes_) v := by
  induction classes_ generalizing v with
  | nil => rfl
  | cons class_set rest ih =>
    have h := VisitClassSet_eq_visitClasses env opt visitor class_set v
    simp only [Visit, classesRead, List.flatten_cons, List.map_append, visitClasses_append]
    rw [← h]
    simp only
    split
    · rename_i hc
      simp only [Bool.not_eq_true'] at hc
      simp [hc]
    · exact ih _

theorem VisitClassSetConst_eq {σ : Type} (env : Env) (opt : ReadBarrierOption)
    (visitor : Nat → Bool) (slots : List TableSlot) (v : σ) :
    VisitClassSetConst env opt visitor slots =
      ((VisitClassSet env opt (fun w c => (visitor c, w)) slots v).1,
        (VisitClassSet env opt (fun w c => (visitor c, w)) slots v).2.2) := by
  induction slots with
  | nil => rfl
  | cons slot rest ih =>
    simp only [VisitClassSetConst, VisitClassSet]
    split
    · rfl
    · rw [ih]

theorem VisitConst_eq {σ : Type} (env : Env) (opt : ReadBarrierOption)
    (visitor : Nat → Bool) (classes_ : List (List TableSlot)) (v : σ) :
    VisitConst env opt visitor classes_ =
      ((Visit env opt (fun w c => (visitor c, w)) classes_ v).1,
        (Visit env opt (fun w c => (visitor c, w)) classes_ v).2.2) := by
  induction classes_ generalizing v with
  | nil => rfl
  | cons class_set rest ih =>
    simp only [VisitConst, Visit]
    rw [VisitClassSetConst_eq env opt visitor class_set v]
    simp only
    split
    · rfl
    · rw [ih (VisitClassSet env opt (fun w c => (visitor c, w)) class_set v).2.1]

theorem answerAt_succ {σ : Type} (visitor : σ → Nat → Bool × σ) (c : Nat) (cs : List Nat)
    (v : σ) (i : Nat) :
    answerAt visitor (c :: cs) v (i + 1) = answerAt visitor cs (visitor v c).2 i := by
  simp [answerAt, applyAll]

theorem visitClasses_spec {σ : Type} (visitor : σ → Nat → Bool × σ) (cs : List Nat) (v : σ)
    (log : List Nat) :
    ∃ n, n ≤ cs.length ∧
      (visitClasses visitor cs v).2 = applyAll visitor (cs.take n) v ∧
      visitClasses (recording visitor) cs (v, log) =
        ((visitClasses visitor cs v).1, (applyAll visitor (cs.take n) v, log ++ cs.take n)) ∧
      (∀ i, i + 1 < n → answerAt visitor cs v i = true) ∧
      ((visitClasses visitor cs v).1 = true ↔
        (n = cs.length ∧ ∀ i, i < cs.length → answerAt visitor cs v i = true)) ∧
      ((visitClasses visitor cs v).1 = false →
        0 < n ∧ answerAt visitor cs v (n - 1) = false) := by
  induction cs generalizing v log with
  | nil =>
    refine ⟨0, le_refl _, rfl, ?_, ?_, ?_, ?_⟩
    · simp [visitClasses, applyAll]
    · intro i hi; omega
    · simp [visitClasses]
    · simp [visitClasses]
  | cons c rest ih =>
    by_cases ha : (visitor v c).1 = true
    · obtain ⟨n, hn, h1, h2, h3, h4, h5⟩ := ih (visitor v c).2 (log ++ [c])
      have hv : visitClasses visitor (c :: rest) v = visitClasses visitor rest (visitor v c).2 := by
        simp [visitClasses, ha]
      have hr : visitClasses (recording visitor) (c :: rest) (v, log) =
          visitClasses (recording visitor) rest ((visitor v c).2, log ++ [c]) := by
        simp [visitClasses, recording, ha]
      have h0 : answerAt visitor (c :: rest) v 0 = true := by
        simpa [answerAt, applyAll] using ha
      refine ⟨n + 1, by simpa using hn, ?_, ?_, ?_, ?_, ?_⟩
      · rw [hv, h1]; simp [applyAll]
      · rw [hr, h2, hv]; simp [applyAll]
      · intro i hi
        cases i with
        | zero => exact h0
        | succ j => rw [answerAt_succ]; exact h3 j (by omega)
      · rw [hv, h4]
        constructor
        · rintro ⟨e, hall⟩
          refine ⟨by simp [e], ?_⟩
          intro i hi
          cases i with
          | zero => exact h0
          | succ j =>
            rw [answerAt_succ]
            exact hall j (by simpa using hi)
        · rintro ⟨e, hall⟩
          refine ⟨by simpa using e, ?_⟩
          intro i hi
          have := hall (i + 1) (by simpa using hi)
          rwa [answerAt_succ] at this
      · rw [hv]
        intro hf
        obtain ⟨hpos, hlast⟩ := h5 hf
        refine ⟨by omega, ?_⟩
        obtain ⟨m, rfl⟩ : ∃ m, n = m + 1 := ⟨n - 1, by omega⟩
        simpa [answerAt_succ] using hlast
    · have ha2 : (visitor v c).1 = false := by simpa using ha
      have h0 : answerAt visitor (c :: rest) v 0 = false := by
        simpa [answerAt, applyAll] using ha2
      refine ⟨1, by simp, ?_, ?_, ?_, ?_, ?_⟩
      · simp [visitClasses, ha2, applyAll]
      · simp [visitClasses, recording, ha2, applyAll]
      · intro i hi; omega
      · simp only [visitClasses, ha2, Bool.not_false, if_true, List.length_cons]
        constructor
        · intro h; cases h
        · rintro ⟨-, hall⟩
          have := hall 0 (by simp)
          rw [h0] at this
          cases this
      · intro _
        exact ⟨by decide, h0⟩

theorem answerAt_const {σ : Type} (p : Nat → Bool) (cs : List Nat) (v : σ) (i : Nat) :
    answerAt (fun (w : σ) c => (p c, w)) cs v i = p (cs.getD i 0) := by
  simp [answerAt]

/-- C10: `ClassTable::Visit` applies the visitor to the classes read from the slots in
iteration order (class sets in order, slots in order within a set), to the first `n` of
them: every application but the last answers `true`, the function returns `true` exactly
when the visitor answered `true` for the class of every slot, and when it returns `false`
the last application is the one that answered `false` (no slot after it is visited).  The
overload taking a constant visitor returns the same result and leaves the same slots. -/
theorem ClassTable_Visit_all_slots_until_first_false {σ : Type} (env : Env)
    (opt : ReadBarrierOption) (visitor : σ → Nat → Bool × σ) (classes_ : List (List TableSlot))
    (v : σ) :
    ∃ n, n ≤ (classesRead env opt classes_).length ∧
      (Visit env opt visitor classes_ v).2.1 =
        applyAll visitor ((classesRead env opt classes_).take n) v ∧
      (Visit env opt (recording visitor) classes_ (v, [])).2.1.2 =
        (classesRead env opt classes_).take n ∧
      (∀ i, i + 1 < n → answerAt visitor (classesRead env opt classes_) v i = true) ∧
      ((Visit env opt visitor classes_ v).1 = true ↔
        (n = (classesRead env opt classes_).length ∧
          ∀ i, i < (classesRead env opt classes_).length →
            answerAt visitor (classesRead env opt classes_) v i = true)) ∧
      ((Visit env opt visitor classes_ v).1 = false →
        0 < n ∧ answerAt visitor (classesRead env opt classes_) v (n - 1) = false) ∧
      (∀ p : Nat → Bool,
        VisitConst env opt p classes_ =
          ((Visit env opt (fun w c => (p c, w)) classes_ v).1,
            (Visit env opt (fun w c => (p c, w)) classes_ v).2.2) ∧
        ((VisitConst env opt p classes_).1 = true ↔
          ∀ c, c ∈ classesRead env opt classes_ → p c = true)) := by
  obtain ⟨n, hn, h1, h2, h3, h4, h5⟩ :=
    visitClasses_spec visitor (classesRead env opt classes_) v []
  have e := Visit_eq_visitClasses env opt visitor classes_ v
  have e1 : (Visit env opt visitor classes_ v).1 =
      (visitClasses visitor (classesRead env opt classes_) v).1 := congrArg Prod.fst e
  have e2 : (Visit env opt visitor classes_ v).2.1 =
      (visitClasses visitor (classesRead env opt classes_) v).2 := congrArg Prod.snd e
  have er := congrArg Prod.snd (Visit_eq_visitClasses env opt (recording visitor) classes_ (v, []))
  simp only at er
  refine ⟨n, hn, e2.trans h1, ?_, h3, ?_, ?_, ?_⟩
  · rw [er, h2]
    simp
  · rw [e1]; exact h4
  · rw [e1]; exact h5
  · intro p
    refine ⟨VisitConst_eq env opt p classes_ v, ?_⟩
    rw [VisitConst_eq env opt p classes_ v]
    obtain ⟨m, hm, -, -, -, k4, k5⟩ :=
      visitClasses_spec (fun (w : σ) c => (p c, w)) (classesRead env opt classes_) v []
    have f1 := congrArg Prod.fst (Visit_eq_visitClasses env opt (fun (w : σ) c => (p c, w)) classes_ v)
    simp only at f1
    rw [f1]
    constructor
    · intro h c hc
      obtain ⟨i, hi, rfl⟩ := List.getElem_of_mem hc
      have := (k4.mp h).2 i hi
      rw [answerAt_const, List.getD_eq_getElem _ _ hi] at this
      exact this
    · intro hall
      by_contra hne
      obtain ⟨hpos, hlast⟩ := k5 (by simpa using hne)
      have hi : m - 1 < (classesRead env opt classes_).length := by omega
      rw [answerAt_const, List.getD_eq_getElem _ _ hi, hall _ (List.getElem_mem hi)] at hlast
      cases hlast

/-! ### `ClassDescriptorEquals` -/

/-- C11: the hash pre-filter of `ClassDescriptorEquals` never changes the answer: when
slots with different stored hashes do not have equal descriptors (what the `DCHECK`s
assert), `operator()(a, b)` on two slots returns, with or without debug checks, exactly
whether the class of `a` `DescriptorEquals` the descriptor of the class of `b`, and
`operator()(a, b)` on a slot and a descriptor/hash pair returns exactly whether the class
of `a` `DescriptorEquals` `b.first`. -/
theorem ClassDescriptorEquals_prefilter_keeps_answer (kEnableDChecks : Bool) (env : Env)
    (denv : DescriptorEnv) (a b : TableSlot) (pair : String × Nat)
    (hslots : denv.Hash a ≠ denv.Hash b →
      denv.DescriptorEquals (TableSlot.Read env ReadBarrierOption.kWithoutReadBarrier a).1
        (denv.GetDescriptor
          (TableSlot.Read env ReadBarrierOption.kWithoutReadBarrier b).1) = false)
    (hpair : denv.MaskedHashEquals a pair.2 = false →
      denv.DescriptorEquals (TableSlot.Read env ReadBarrierOption.kWithoutReadBarrier a).1
        pair.1 = false) :
    ClassDescriptorEquals.operator_call kEnableDChecks env denv a b =
      some (denv.DescriptorEquals
        (TableSlot.Read env ReadBarrierOption.kWithoutReadBarrier a).1
        (denv.GetDescriptor (TableSlot.Read env ReadBarrierOption.kWithoutReadBarrier b).1)) ∧
    ClassDescriptorEquals.operator_call_pair kEnableDChecks env denv a pair =
      some (denv.DescriptorEquals
        (TableSlot.Read env ReadBarrierOption.kWithoutReadBarrier a).1 pair.1) := by
  constructor
  · unfold ClassDescriptorEquals.operator_call
    split
    · rename_i hne
      rw [hslots hne]
      simp [DCHECK]
    · rfl
  · unfold ClassDescriptorEquals.operator_call_pair
    split
    · rename_i hne
      have hne2 : denv.MaskedHashEquals a pair.2 = false := by simpa using hne
      rw [hpair hne2]
      simp [DCHECK]
    · rfl

/-- Witness for C11: a table with the classes `LA;` at address 8 and `LB;` at address 16,
three hash bits; slot `a` holds `LA;` with hash bits 3, slot `b` holds `LB;` with hash
bits 5, and the pair is the descriptor `LA;` with hash 11. -/
theorem ClassDescriptorEquals_prefilter_keeps_answer_witness :
    ClassDescriptorEquals.operator_call true
        { kHashMask := 7, MaskHash := fun h => h &&& 7, readBarrier := fun q => q }
        { Hash := fun slot => slot.data_ &&& 7
          MaskedHashEquals := fun slot h => (h &&& 7) == (slot.data_ &&& 7)
          GetDescriptor := fun klass => if klass = 8 then "LA;" else "LB;"
          DescriptorEquals := fun klass d => (if klass = 8 then "LA;" else "LB;") == d }
        { data_ := 11 } { data_ := 21 } = some false ∧
    ClassDescriptorEquals.operator_call_pair true
        { kHashMask := 7, MaskHash := fun h => h &&& 7, readBarrier := fun q => q }
        { Hash := fun slot => slot.data_ &&& 7
          MaskedHashEquals := fun slot h => (h &&& 7) == (slot.data_ &&& 7)
          GetDescriptor := fun klass => if klass = 8 then "LA;" else "LB;"
          DescriptorEquals := fun klass d => (if klass = 8 then "LA;" else "LB;") == d }
        { data_ := 11 } ("LA;", 11) = some true :=
  ClassDescriptorEquals_prefilter_keeps_answer true
    { kHashMask := 7, MaskHash := fun h => h &&& 7, readBarrier := fun q => q }
    { Hash := fun slot => slot.data_ &&& 7
      MaskedHashEquals := fun slot h => (h &&& 7) == (slot.data_ &&& 7)
      GetDescriptor := fun klass => if klass = 8 then "LA;" else "LB;"
      DescriptorEquals := fun klass d => (if klass = 8 then "LA;" else "LB;") == d }
    { data_ := 11 } { data_ := 21 } ("LA;", 11) (fun _ => by decide) (fun h => by
      revert h; decide)

/-! ### Packing of a `TableSlot` -/

theorem testBit_false_of_and_mask (p k j : Nat) (hp : p &&& (2 ^ k - 1) = 0) (hj : j < k) :
    p.testBit j = false := by
  have h := congrArg (fun n => n.testBit j) hp
  simp only [Nat.testBit_and, Nat.testBit_two_pow_sub_one, Nat.zero_testBit] at h
  simpa [hj] using h

theorem testBit_false_of_lt_two_pow (h k j : Nat) (hh : h < 2 ^ k) (hj : k ≤ j) :
    h.testBit j = false :=
  Nat.testBit_lt_two_pow (lt_of_lt_of_le hh (Nat.pow_le_pow_right (by decide) hj))

theorem Encode_eq_or (k p hash_bits : Nat) (hk : k ≤ 32) (hp : p < 2 ^ 32)
    (hh : hash_bits ≤ 2 ^ k - 1) :
    TableSlot.Encode p hash_bits = p ||| hash_bits := by
  have hpos : 0 < 2 ^ k := by positivity
  have h32 : hash_bits < 2 ^ 32 :=
    lt_of_lt_of_le (by omega) (Nat.pow_le_pow_right (by decide) hk)
  exact Nat.mod_eq_of_lt (Nat.or_lt_two_pow hp h32)

theorem ExtractPtr_Encode (env : Env) (k p hash_bits : Nat) (hk : k ≤ 32)
    (hmask : env.kHashMask = 2 ^ k - 1) (hp32 : p < 2 ^ 32) (hp : p &&& env.kHashMask = 0)
    (hh : hash_bits ≤ env.kHashMask) :
    TableSlot.ExtractPtr env (TableSlot.Encode p hash_bits) = p := by
  rw [hmask] at hp hh
  have hpos : 0 < 2 ^ k := by positivity
  have hlt : hash_bits < 2 ^ k := by omega
  rw [Encode_eq_or k p hash_bits hk hp32 hh]
  unfold TableSlot.ExtractPtr
  rw [hmask]
  apply Nat.eq_of_testBit_eq
  intro j
  rw [Nat.testBit_and, Nat.testBit_or, Nat.testBit_xor, Nat.testBit_two_pow_sub_one,
    Nat.testBit_two_pow_sub_one]
  by_cases hjk : j < k
  · have hj32 : j < 32 := by omega
    simp [hjk, hj32, testBit_false_of_and_mask p k j hp hjk]
  · by_cases hj32 : j < 32
    · simp [hjk, hj32, testBit_false_of_lt_two_pow hash_bits k j hlt (by omega)]
    · simp [hjk, hj32, testBit_false_of_lt_two_pow p 32 j hp32 (by omega)]

theorem Encode_and_mask (env : Env) (k p hash_bits : Nat) (hk : k ≤ 32)
    (hmask : env.kHashMask = 2 ^ k - 1) (hp32 : p < 2 ^ 32) (hp : p &&& env.kHashMask = 0)
    (hh : hash_bits ≤ env.kHashMask) :
    TableSlot.Encode p hash_bits &&& env.kHashMask = hash_bits := by
  rw [hmask] at hp hh ⊢
  have hpos : 0 < 2 ^ k := by positivity
  have hlt : hash_bits < 2 ^ k := by omega
  rw [Encode_eq_or k p hash_bits hk hp32 hh]
  apply Nat.eq_of_testBit_eq
  intro j
  rw [Nat.testBit_and, Nat.testBit_or, Nat.testBit_two_pow_sub_one]
  by_cases hjk : j < k
  · simp [hjk, testBit_false_of_and_mask p k j hp hjk]
  · simp [hjk, testBit_false_of_lt_two_pow hash_bits k j hlt (by omega)]

theorem and_mask_le (h k : Nat) : h &&& (2 ^ k - 1) ≤ 2 ^ k - 1 :=
  Nat.and_le_right

/-- C12: packing round trip of a `TableSlot`, for a hash mask `kHashMask = 2^k - 1` of a
32-bit word.  For every 32-bit class address `p` without bits under `kHashMask` and every
`hash_bits ≤ kHashMask`, `ExtractPtr(Encode(p, hash_bits))` is `p` and
`Encode(p, hash_bits) & kHashMask` is `hash_bits`.  Consequently, with `MaskHash(before)`
being `before & kHashMask`, `TableSlot::Read` leaves a slot whose pointer part is the
class it returns and `TableSlot::VisitRoot` leaves a slot whose pointer part is the
address the visitor left in the root, and both leave the hash bits of the slot
unchanged. -/
theorem TableSlot_packing_round_trip (env : Env) (k : Nat) (hk : k ≤ 32)
    (hmask : env.kHashMask = 2 ^ k - 1) :
    (∀ p hash_bits : Nat, p < 2 ^ 32 → p &&& env.kHashMask = 0 → hash_bits ≤ env.kHashMask →
      TableSlot.ExtractPtr env (TableSlot.Encode p hash_bits) = p ∧
      TableSlot.Encode p hash_bits &&& env.kHashMask = hash_bits) ∧
    (∀ (opt : ReadBarrierOption) (slot : TableSlot),
      env.MaskHash slot.data_ = slot.data_ &&& env.kHashMask →
      env.readBarrier (TableSlot.ExtractPtr env slot.data_) < 2 ^ 32 →
      env.readBarrier (TableSlot.ExtractPtr env slot.data_) &&& env.kHashMask = 0 →
      TableSlot.ExtractPtr env (TableSlot.Read env opt slot).2.data_ =
        (TableSlot.Read env opt slot).1 ∧
      (TableSlot.Read env opt slot).1 = GcRootRead env opt (TableSlot.ExtractPtr env slot.data_) ∧
      (TableSlot.Read env opt slot).2.data_ &&& env.kHashMask =
        slot.data_ &&& env.kHashMask) ∧
    (∀ (visitor : Nat → Nat) (slot : TableSlot),
      env.MaskHash slot.data_ = slot.data_ &&& env.kHashMask →
      visitor (TableSlot.ExtractPtr env slot.data_) < 2 ^ 32 →
      visitor (TableSlot.ExtractPtr env slot.data_) &&& env.kHashMask = 0 →
      TableSlot.ExtractPtr env (TableSlot.VisitRoot env visitor slot).data_ =
        visitor (TableSlot.ExtractPtr env slot.data_) ∧
      (TableSlot.VisitRoot env visitor slot).data_ &&& env.kHashMask =
        slot.data_ &&& env.kHashMask) := by
  have hle : ∀ d : Nat, d &&& env.kHashMask ≤ env.kHashMask := fun d => Nat.and_le_right
  refine ⟨?_, ?_, ?_⟩
  · intro p hash_bits hp32 hp hh
    exact ⟨ExtractPtr_Encode env k p hash_bits hk hmask hp32 hp hh,
      Encode_and_mask env k p hash_bits hk hmask hp32 hp hh⟩
  · intro opt slot hmh h32 hal
    unfold TableSlot.Read
    simp only
    split
    · rename_i hc
      have hopt : opt = ReadBarrierOption.kWithReadBarrier := by
        cases opt
        · rfl
        · exact absurd rfl hc.1
      subst hopt
      simp only [GcRootRead, hmh]
      exact ⟨ExtractPtr_Encode env k _ _ hk hmask h32 hal (hle _), trivial,
        Encode_and_mask env k _ _ hk hmask h32 hal (hle _)⟩
    · rename_i hc
      refine ⟨?_, rfl, rfl⟩
      cases opt with
      | kWithReadBarrier =>
        have heq : TableSlot.ExtractPtr env slot.data_ =
            GcRootRead env ReadBarrierOption.kWithReadBarrier
              (TableSlot.ExtractPtr env slot.data_) := by
          by_contra hne
          exact hc ⟨by decide, hne⟩
        exact heq
      | kWithoutReadBarrier => rfl
  · intro visitor slot hmh h32 hal
    unfold TableSlot.VisitRoot
    simp only
    split
    · simp only [hmh]
      exact ⟨ExtractPtr_Encode env k _ _ hk hmask h32 hal (hle _),
        Encode_and_mask env k _ _ hk hmask h32 hal (hle _)⟩
    · rename_i hc
      exact ⟨by simpa using hc, rfl⟩

/-- Witness for C12: three hash bits (`kHashMask = 7`), the class address 24 and the hash
bits 5. -/
theorem TableSlot_packing_round_trip_witness :
    TableSlot.ExtractPtr
        { kHashMask := 7, MaskHash := fun h => h &&& 7, readBarrier := fun q => q + 64 }
        (TableSlot.Encode 24 5) = 24 ∧
    TableSlot.Encode 24 5 &&& 7 = 5 :=
  (TableSlot_packing_round_trip
    { kHashMask := 7, MaskHash := fun h => h &&& 7, readBarrier := fun q => q + 64 } 3
    (by decide) (by decide)).1 24 5 (by decide) (by decide) (by decide)

end ClassTable

end art
